import Mathlib

/-!
Verification development for the vampire job-execution engine.

The definitions below are a shallow embedding of the TypeScript sources:
- `src/apps/server/src/worker.ts` (the job state machine `runWorker`),
- the claude provider's `runAgent` stream parser,
- the jobs route's SSE log endpoint.

External effects (git/gh subprocess results, database cancellation polls,
the agent subprocess) are modelled by an environment record supplying the
outcome of each call; the engine itself is embedded faithfully, statement
by statement, as a state-and-error monad over a trace of issued commands
and the accumulated log.
-/

set_option maxHeartbeats 1000000

namespace Vampire

/-- Outcome of one external command invocation (`execFile`): either the raw
stdout text, or a thrown error carrying a message.  Mirrors the resolved /
rejected promise of `execFileAsync`. -/
inductive ExecResult where
  | ok (stdout : String)
  | err (msg : String)
deriving DecidableEq

/-- Whitespace in the sense of JavaScript `String.prototype.trim` (restricted
to the ASCII whitespace actually produced by the modelled commands). -/
def isWsChar (c : Char) : Bool :=
  c = ' ' ∨ c = '\t' ∨ c = '\n' ∨ c = '\r'

/-- Trim leading and trailing whitespace from a character list. -/
def trimChars (l : List Char) : List Char :=
  ((l.dropWhile isWsChar).reverse.dropWhile isWsChar).reverse

/-- Model of JavaScript `s.trim()`. -/
def strTrim (s : String) : String :=
  String.mk (trimChars s.data)

/-- Index of the first occurrence of `pat` in `s`, if any.  Models the
leftmost-match search of a JavaScript regex / `String.prototype.includes`. -/
def findSub (pat : List Char) : List Char → Option Nat
  | [] => if pat.isPrefixOf ([] : List Char) then some 0 else none
  | c :: t =>
    if pat.isPrefixOf (c :: t) then some 0
    else (findSub pat t).map (· + 1)

/-- Model of JavaScript `s.includes(pat)`. -/
def containsSub (s pat : String) : Bool :=
  (findSub pat.data s.data).isSome

/-- The PR-body start sentinel together with the newline the regex requires
right after it: `---PR_BODY_START---\n`. -/
def prStart : List Char := "---PR_BODY_START---\n".data

/-- The newline plus PR-body end sentinel required by the regex:
`\n---PR_BODY_END---`. -/
def prEnd : List Char := "\n---PR_BODY_END---".data

/-- Model of `claudeOutput.match(/---PR_BODY_START---\n([\s\S]*?)\n---PR_BODY_END---/)`:
scan start positions left to right; at the first position where the start
sentinel matches and the end sentinel occurs later, the lazy group captures
the shortest body, i.e. everything up to the first later end sentinel. -/
def regexFind : List Char → Option (List Char)
  | [] => none
  | c :: t =>
    if prStart.isPrefixOf (c :: t) then
      match findSub prEnd ((c :: t).drop prStart.length) with
      | some j => some (((c :: t).drop prStart.length).take j)
      | none => regexFind t
    else regexFind t

/-- The synthesized default change description (worker.ts lines 424-428):
`isDirect` is `issueNo == null` in the source, so the default is selected by
the presence of the issue number. -/
def defaultPrBody (issueNo : Option Nat) : String :=
  match issueNo with
  | none => "_Auto-generated by Vampire_"
  | some n => "Resolves #" ++ toString n ++ "\n\n_Auto-generated by Vampire_"

/-- Model of worker.ts lines 422-428: extract the delimited PR body from the
agent output, trim it, and fall back (`|| null` plus the `!prBody` check,
which treats an empty trimmed capture as absent) to the default. -/
def extractPrBody (claudeOutput : String) (issueNo : Option Nat) : String :=
  match (regexFind claudeOutput.data).map (fun l => strTrim (String.mk l)) with
  | some b => if b = "" then defaultPrBody issueNo else b
  | none => defaultPrBody issueNo

/-- Model of the claude provider stderr handler (claude.ts lines 93-96):
`const text = chunk.toString().trim(); if (text) callbacks.onText(text);`.
`some t` means `onText` is invoked with `t`; `none` means no callback. -/
def stderrForward (chunk : String) : Option String :=
  let text := strTrim chunk
  if text ≠ "" then some text else none

/-- Observable actions of the SSE log endpoint (jobs route, `/api/jobs/:jobId/log`). -/
inductive SseEvent where
  | notFound
  | headWritten
  | doneEvent (status : String)
  | dataEvent (chunk : String)
  | streamEnd
  | subscribed
deriving DecidableEq

/-- Model of the SSE log streaming handler: 404 when the job is missing;
otherwise write the head, and if the persisted status is not `running`,
deliver the done event carrying the status and end the stream; else attach
the live log subscription. -/
def logStreamRoute (jobStatus : Option String) : List SseEvent :=
  match jobStatus with
  | none => [SseEvent.notFound]
  | some st =>
    if st ≠ "running" then
      [SseEvent.headWritten, SseEvent.doneEvent st, SseEvent.streamEnd]
    else
      [SseEvent.headWritten, SseEvent.subscribed]

/-! ### Agent stdout stream parser (claude provider, `runAgent`) -/

/-- JSON values, as produced by `JSON.parse` on the agent's stream-json
records (numbers restricted to the integer fragment, which is all the
modelled records use). -/
inductive Json where
  | jnull
  | jbool (b : Bool)
  | jnum (n : Int)
  | jstr (s : String)
  | jarr (elems : List Json)
  | jobj (fields : List (String × Json))

/-- JSON / JavaScript whitespace accepted between tokens. -/
def jsonWs (c : Char) : Bool :=
  c = ' ' ∨ c = '\t' ∨ c = '\n' ∨ c = '\r'

/-- Value of a hexadecimal digit, for `\uXXXX` string escapes. -/
def hexVal (c : Char) : Option Nat :=
  if '0' ≤ c ∧ c ≤ '9' then some (c.toNat - '0'.toNat)
  else if 'a' ≤ c ∧ c ≤ 'f' then some (c.toNat - 'a'.toNat + 10)
  else if 'A' ≤ c ∧ c ≤ 'F' then some (c.toNat - 'A'.toNat + 10)
  else none

/-- Parse the body of a JSON string literal (after the opening quote),
returning the decoded characters and the remaining input. -/
def parseStrBody (acc : List Char) : List Char → Option (List Char × List Char)
  | [] => none
  | c :: t =>
    if c = '"' then some (acc.reverse, t)
    else if c = '\\' then
      match t with
      | [] => none
      | e :: t2 =>
        if e = '"' then parseStrBody ('"' :: acc) t2
        else if e = '\\' then parseStrBody ('\\' :: acc) t2
        else if e = '/' then parseStrBody ('/' :: acc) t2
        else if e = 'n' then parseStrBody ('\n' :: acc) t2
        else if e = 't' then parseStrBody ('\t' :: acc) t2
        else if e = 'r' then parseStrBody ('\r' :: acc) t2
        else if e = 'b' then parseStrBody ('\x08' :: acc) t2
        else if e = 'f' then parseStrBody ('\x0c' :: acc) t2
        else if e = 'u' then
          match t2 with
          | h1 :: h2 :: h3 :: h4 :: t3 =>
            match hexVal h1, hexVal h2, hexVal h3, hexVal h4 with
            | some a, some b, some c3, some d =>
              parseStrBody (Char.ofNat (((a * 16 + b) * 16 + c3) * 16 + d) :: acc) t3
            | _, _, _, _ => none
          | _ => none
        else none
    else parseStrBody (c :: acc) t

/-- Parse a JSON integer literal (optional minus sign, one or more digits). -/
def parseNum : List Char → Option (Int × List Char)
  | [] => none
  | c :: t =>
    if c = '-' then
      match t.span Char.isDigit with
      | ([], _) => none
      | (ds, rest) => some (-(Int.ofNat (ds.foldl (fun n d => n * 10 + (d.toNat - '0'.toNat)) 0)), rest)
    else
      match (c :: t).span Char.isDigit with
      | ([], _) => none
      | (ds, rest) => some (Int.ofNat (ds.foldl (fun n d => n * 10 + (d.toNat - '0'.toNat)) 0), rest)

mutual

/-- Fuel-indexed recursive-descent parser for one JSON value. -/
def parseJson : Nat → List Char → Option (Json × List Char)
  | 0, _ => none
  | Nat.succ fuel, l =>
    match l.dropWhile jsonWs with
    | [] => none
    | c :: t =>
      if c = '"' then
        match parseStrBody [] t with
        | some (cs, rest) => some (Json.jstr (String.mk cs), rest)
        | none => none
      else if c = '\x7b' then parseObj fuel t
      else if c = '[' then parseArr fuel t
      else if c = 't' then
        if ['r', 'u', 'e'].isPrefixOf t then some (Json.jbool true, t.drop 3) else none
      else if c = 'f' then
        if ['a', 'l', 's', 'e'].isPrefixOf t then some (Json.jbool false, t.drop 4) else none
      else if c = 'n' then
        if ['u', 'l', 'l'].isPrefixOf t then some (Json.jnull, t.drop 3) else none
      else
        match parseNum (c :: t) with
        | some (n, rest) => some (Json.jnum n, rest)
        | none => none
termination_by structural fuel _ => fuel

/-- Parse the inside of a JSON object (after the opening brace). -/
def parseObj : Nat → List Char → Option (Json × List Char)
  | 0, _ => none
  | Nat.succ fuel, l =>
    match l.dropWhile jsonWs with
    | [] => none
    | c :: t =>
      if c = '\x7d' then some (Json.jobj [], t)
      else if c = '"' then
        match parseFields fuel (c :: t) with
        | some (fs, rest) => some (Json.jobj fs, rest)
        | none => none
      else none
termination_by structural fuel _ => fuel

/-- Parse a nonempty comma-separated field list, consuming the closing brace. -/
def parseFields : Nat → List Char → Option (List (String × Json) × List Char)
  | 0, _ => none
  | Nat.succ fuel, l =>
    match l.dropWhile jsonWs with
    | [] => none
    | c :: t =>
      if c = '"' then
        match parseStrBody [] t with
        | some (kcs, r1) =>
          match r1.dropWhile jsonWs with
          | ':' :: r2 =>
            match parseJson fuel r2 with
            | some (v, r3) =>
              match r3.dropWhile jsonWs with
              | ',' :: r4 =>
                match parseFields fuel r4 with
                | some (fs, rest) => some ((String.mk kcs, v) :: fs, rest)
                | none => none
              | '\x7d' :: r4 => some ([(String.mk kcs, v)], r4)
              | _ => none
            | none => none
          | _ => none
        | none => none
      else none
termination_by structural fuel _ => fuel

/-- Parse the inside of a JSON array (after the opening bracket). -/
def parseArr : Nat → List Char → Option (Json × List Char)
  | 0, _ => none
  | Nat.succ fuel, l =>
    match l.dropWhile jsonWs with
    | [] => none
    | c :: t =>
      if c = ']' then some (Json.jarr [], t)
      else
        match parseElems fuel (c :: t) with
        | some (es, rest) => some (Json.jarr es, rest)
        | none => none
termination_by structural fuel _ => fuel

/-- Parse a nonempty comma-separated element list, consuming the closing bracket. -/
def parseElems : Nat → List Char → Option (List Json × List Char)
  | 0, _ => none
  | Nat.succ fuel, l =>
    match parseJson fuel l with
    | some (v, r1) =>
      match r1.dropWhile jsonWs with
      | ',' :: r2 =>
        match parseElems fuel r2 with
        | some (es, rest) => some (v :: es, rest)
        | none => none
      | ']' :: r2 => some ([v], r2)
      | _ => none
    | none => none

termination_by structural fuel _ => fuel
end

/-- Model of `JSON.parse(line)`: parse one value and require only trailing
whitespace after it; `none` models the thrown `SyntaxError` (swallowed by the
provider's `catch`). -/
def jsonParse (s : String) : Option Json :=
  match parseJson (s.length + 1) s.data with
  | some (j, rest) => if rest.dropWhile jsonWs = [] then some j else none
  | none => none

/-- Field access `obj[key]` on a parsed JSON value; on duplicate keys
`JSON.parse` keeps the last occurrence. Non-objects have no fields
(member access yields `undefined`). -/
def getField (j : Json) (k : String) : Option Json :=
  match j with
  | Json.jobj fs => fs.foldl (fun acc p => if p.1 = k then some p.2 else acc) none
  | _ => none

/-- JavaScript truthiness of a parsed JSON value. -/
def jTruthy : Json → Bool
  | Json.jnull => false
  | Json.jbool b => b
  | Json.jnum n => n ≠ 0
  | Json.jstr s => s ≠ ""
  | Json.jarr _ => true
  | Json.jobj _ => true

/-- Truthiness of an optional field (`undefined` is falsy). -/
def truthyOpt (o : Option Json) : Bool :=
  match o with
  | some j => jTruthy j
  | none => false

/-- Does the optional field hold exactly the string `s` (JavaScript `===`)? -/
def isStr (o : Option Json) (s : String) : Bool :=
  match o with
  | some (Json.jstr t) => t = s
  | _ => false

/-- One observable callback of the stream parser. -/
inductive CbEvent where
  | toolUse (name : String) (input : Json)
  | text (s : String)

/-- Parser accumulator: callbacks fired so far, and the running `finalResult`. -/
structure StreamAcc where
  events : List CbEvent
  finalResult : String

/-- Handling of one content block of an assistant message (claude.ts lines
70-77): a `tool_use` block fires `onToolUse(block.name, block.input || {})`;
a `text` block with truthy text appends to the result and fires `onText`. -/
def procBlock (a : StreamAcc) (block : Json) : StreamAcc :=
  if isStr (getField block "type") "tool_use" then
    let name := match getField block "name" with
      | some (Json.jstr s) => s
      | _ => ""
    let input := match getField block "input" with
      | some j => if jTruthy j then j else Json.jobj []
      | none => Json.jobj []
    { a with events := a.events ++ [CbEvent.toolUse name input] }
  else if isStr (getField block "type") "text" then
    match getField block "text" with
    | some (Json.jstr t) =>
      if t ≠ "" then
        { events := a.events ++ [CbEvent.text t], finalResult := a.finalResult ++ t }
      else a
    | _ => a
  else a

/-- Model of `processLine` (claude.ts lines 65-84): skip blank lines, parse
JSON (malformed lines are swallowed), dispatch on the record kind. -/
def processLine (a : StreamAcc) (line : List Char) : StreamAcc :=
  if trimChars line = [] then a
  else
    match jsonParse (String.mk line) with
    | none => a
    | some ev =>
      let contentOpt := (getField ev "message").bind (fun m => getField m "content")
      if isStr (getField ev "type") "assistant" ∧ truthyOpt contentOpt then
        match contentOpt with
        | some (Json.jarr blocks) => blocks.foldl procBlock a
        | _ => a
      else if isStr (getField ev "type") "result" then
        match getField ev "result" with
        | some (Json.jstr s) => if s ≠ "" then { a with finalResult := s } else a
        | _ => a
      else a

/-- Model of JavaScript `s.split('\n')`: the list of inter-newline segments
(one more segment than there are newlines; empty segments preserved). -/
def splitNl : List Char → List (List Char)
  | [] => [[]]
  | c :: t =>
    if c = '\n' then [] :: splitNl t
    else
      match splitNl t with
      | [] => [[c]]
      | l :: ls => (c :: l) :: ls

/-- Model of the stdout `data` handler (claude.ts lines 86-91): append the
chunk to the line buffer, split on newlines, keep the last (partial) segment
as the new buffer, and process every completed line. -/
def onStdoutData (p : List Char × StreamAcc) (chunk : List Char) : List Char × StreamAcc :=
  ((splitNl (p.1 ++ chunk)).getLastD [],
   ((splitNl (p.1 ++ chunk)).dropLast).foldl processLine p.2)

/-- Initial stream state: empty line buffer, no callbacks, empty result. -/
def streamInit : List Char × StreamAcc := ([], ⟨[], ""⟩)

/-- Model of the `close` handler's flush (claude.ts line 99): a leftover
partial line that is not blank is processed as a final line. -/
def closeFlush (p : List Char × StreamAcc) : StreamAcc :=
  if trimChars p.1 ≠ [] then processLine p.2 p.1 else p.2

/-- The whole stream run: feed every stdout chunk through the data handler,
then flush at process exit. -/
def runStream (chunks : List (List Char)) : StreamAcc :=
  closeFlush (chunks.foldl onStdoutData streamInit)

/-- The scenario record: an assistant message carrying one `tool_use` block
for tool `Write` with input `file_path: "a.ts"` (no trailing newline). -/
def writeRecord : List Char :=
  "\x7b\"type\":\"assistant\",\"message\":\x7b\"content\":[\x7b\"type\":\"tool_use\",\"name\":\"Write\",\"input\":\x7b\"file_path\":\"a.ts\"\x7d\x7d]\x7d\x7d".data

/-- The scenario record delivered as one complete line. -/
def writeRecordLine : List Char := writeRecord ++ ['\n']

/-! ### The job state machine (`runWorker`, worker.ts)

The worker body is embedded as a state-and-error monad over a trace state:
the accumulated log (tagged by producer: the engine's own `log(...)` calls
versus text streamed from the agent callbacks), the list of external
commands issued so far, and whether the `cloneDir` variable has been
assigned.  Every external outcome (each git/gh invocation, each
`isCancelled` database poll, each agent run) is drawn from an environment
record `Env`; a failed database poll inside `isCancelled` returns `false`
in the source, so the environment directly supplies the boolean each poll
yields. -/

/-- One log line, tagged by who produced it: `eng` for the engine's own
`log(...)` calls, `agent` for lines produced by the streaming callbacks
while the agent subprocess runs. -/
inductive LogEntry where
  | eng (s : String)
  | agent (s : String)
deriving DecidableEq

/-- External commands issued by the worker, in trace order.  `persistStatus`
and `emitDone` are the finalization writes (`prisma.job.update` with the
terminal status, and the `done` event on the log emitter). -/
inductive Cmd where
  | ghIssueViewTitle
  | ghIssueViewBody
  | dbUpdateTitle
  | gitFetchBase
  | gitFetchBranchRoot
  | gitRemoteGetUrl
  | gitClone
  | gitSetUrl
  | gitLsRemote
  | gitFetchBranchClone
  | gitCheckout
  | agentRun (attempt : Nat)
  | gitDiffQuiet
  | gitDiffCachedQuiet
  | gitLsFiles
  | ghIssueComment
  | gitShowCurrent
  | gitAdd
  | gitCommit
  | gitPush
  | gitDiffHead
  | rmWorkspace
  | persistStatus (s : String)
  | emitDone (s : String)
deriving DecidableEq

/-- Mutable trace state threaded through the worker body. -/
structure St where
  log : List LogEntry
  cmds : List Cmd
  cloneDirSet : Bool
deriving DecidableEq

/-- The worker monad: state plus thrown `Error` messages. -/
def M (α : Type) : Type := St → St × Except String α

/-- Sequencing in the worker monad: a thrown error short-circuits, keeping
the state (side effects already performed stay performed). -/
def mBind {α β : Type} (m : M α) (f : α → M β) : M β := fun st =>
  match m st with
  | (st', Except.ok a) => f a st'
  | (st', Except.error e) => (st', Except.error e)

instance : Monad M where
  pure a := fun st => (st, Except.ok a)
  bind := mBind

/-- The engine's `log(text)`: appends one engine-tagged line. -/
def logE (s : String) : M Unit := fun st =>
  ({ st with log := st.log ++ [LogEntry.eng s] }, Except.ok ())

/-- Model of `throw new Error(msg)`. -/
def throwM {α : Type} (msg : String) : M α := fun st =>
  (st, Except.error msg)

/-- An awaited `exec(...)` call: the command is recorded, then the call
either resolves (the source returns `stdout.trim()`) or throws. -/
def execM (c : Cmd) (r : ExecResult) : M String := fun st =>
  let st' := { st with cmds := st.cmds ++ [c] }
  match r with
  | ExecResult.ok s => (st', Except.ok (strTrim s))
  | ExecResult.err m => (st', Except.error m)

/-- A `try { ... } catch (_) {}` block: errors are swallowed, effects kept. -/
def tryIgnore {α : Type} (m : M α) : M Unit := fun st =>
  match m st with
  | (st', Except.ok _) => (st', Except.ok ())
  | (st', Except.error _) => (st', Except.ok ())

/-- A `try { ... } catch { result := dflt }` block, as in the change check. -/
def tryOr {α : Type} (m : M α) (dflt : α) : M α := fun st =>
  match m st with
  | (st', Except.ok a) => (st', Except.ok a)
  | (st', Except.error _) => (st', Except.ok dflt)

/-- The assignment `cloneDir = join(tmpdir(), ...)` (worker.ts line 173). -/
def setCloneDirM : M Unit := fun st =>
  ({ st with cloneDirSet := true }, Except.ok ())

/-- Job record fields used by the worker (nullable fields are `Option`). -/
structure JobRec where
  id : Nat
  issueNo : Option Nat
  issueTitle : Option String
  description : Option String
  type : String

/-- Project fields used by the worker. -/
structure ProjectRec where
  baseBranch : String
  provider : Option String
  prompt : Option String

/-- Follow-up context (`FollowUpContext` in the source). -/
structure FollowUpCtx where
  branch : String
  message : String
  previousDiff : Option String

/-- Workspace state relevant to the post-agent change inspection, plus
whether each of the three inspection commands itself fails outright.
`git diff --quiet` / `git diff --cached --quiet` exit non-zero exactly when
the corresponding diff is nonempty (or the command fails), which `exec`
surfaces as a thrown error. -/
structure ChangeEnv where
  unstagedEmpty : Bool
  stagedEmpty : Bool
  untracked : String
  diffCmdFails : Bool
  cachedCmdFails : Bool
  lsFilesCmdFails : Bool

/-- Environment: the outcome of every external interaction of one job run,
in program order.  `cancel1`, `cancel2`, `cancelAttempt i` and
`cancelAfterLoop` are the successive `isCancelled` polls (worker.ts lines
157, 211, 304, 396); `finalCancelled` is the re-read in the finalization
handlers (lines 466 and 493). -/
structure Env where
  job : JobRec
  project : ProjectRec
  followUp : Option FollowUpCtx
  now : String
  cloneDirName : String
  issueViewTitle : ExecResult
  issueViewBody : ExecResult
  dbUpdateTitle : ExecResult
  fetchBase : ExecResult
  fetchBranchRoot : ExecResult
  remoteUrl : ExecResult
  clone : ExecResult
  setUrl : ExecResult
  lsRemote : ExecResult
  fetchBranchClone : ExecResult
  checkout : ExecResult
  cancel1 : Bool
  cancel2 : Bool
  cancelAttempt : Nat → Bool
  agentResult : Nat → Except String String
  agentLogLines : Nat → List String
  changeCheck : Nat → ChangeEnv
  issueComment : ExecResult
  cancelAfterLoop : Bool
  showCurrent : ExecResult
  addResult : ExecResult
  commitResult : ExecResult
  pushResult : ExecResult
  diffHead : ExecResult
  rmOk : Bool
  finalCancelled : Bool

/-- JavaScript `a || b` for a nullable string `a` (null and the empty string
are falsy). -/
def strOr (o : Option String) (d : String) : String :=
  match o with
  | some s => if s = "" then d else s
  | none => d

/-- JavaScript `s.slice(0, n)`. -/
def takeStr (s : String) (n : Nat) : String :=
  String.mk (s.data.take n)

/-- The retry budget `MAX_RETRY` (worker.ts line 300). -/
def MAX_RETRY : Nat := 2

/-- One agent invocation (`provider.runAgent` + `await handle.result`):
records the run, appends whatever lines the streaming callbacks logged
during it (environment-chosen, tagged `agent`), then either resolves to
the agent's final textual result or rejects. -/
def runAgentM (env : Env) (attempt : Nat) : M String := fun st =>
  let st' := { st with
    cmds := st.cmds ++ [Cmd.agentRun attempt],
    log := st.log ++ (env.agentLogLines attempt).map LogEntry.agent }
  match env.agentResult attempt with
  | Except.ok s => (st', Except.ok s)
  | Except.error m => (st', Except.error m)

/-- The post-run change inspection (worker.ts lines 364-373): the three git
commands inside `try`, any thrown error (including the non-zero exit that
signals a nonempty diff) caught and treated as "has changes". -/
def checkChanges (ce : ChangeEnv) : M Bool :=
  tryOr
    (do
      let _ ← execM Cmd.gitDiffQuiet
        (if ce.diffCmdFails then ExecResult.err "diff failed"
         else if ce.unstagedEmpty then ExecResult.ok "" else ExecResult.err "exit 1")
      let _ ← execM Cmd.gitDiffCachedQuiet
        (if ce.cachedCmdFails then ExecResult.err "diff failed"
         else if ce.stagedEmpty then ExecResult.ok "" else ExecResult.err "exit 1")
      let untracked ← execM Cmd.gitLsFiles
        (if ce.lsFilesCmdFails then ExecResult.err "ls-files failed"
         else ExecResult.ok ce.untracked)
      pure (0 < untracked.length))
    true

/-- The boolean the Retry Controller's change inspection reports, run from
any state (the state only accumulates the trace; the reported boolean does
not depend on it). -/
def reportsChanged (ce : ChangeEnv) : Bool :=
  match checkChanges ce ⟨[], [], false⟩ with
  | (_, Except.ok b) => b
  | (_, Except.error _) => true

/-- The retry loop (worker.ts lines 303-394), fuel-indexed: `fuel` is the
number of remaining iterations the `for` condition still allows
(`MAX_RETRY + 2 - attempt`), so running out of fuel is exactly the loop
condition failing and returning the current `claudeOutput`.  Prompt
construction is not observable (it only feeds the agent subprocess, whose
behaviour the environment supplies) and is omitted. -/
def agentLoopF (env : Env) : Nat → Nat → String → M String
  | 0, _, prev => pure prev
  | Nat.succ fuel, attempt, _prev => do
    (if env.cancelAttempt attempt then throwM "cancelled" else pure ())
    (if 1 < attempt then do
        logE ""
        logE ("[4/5] Retry #" ++ toString (attempt - 1) ++ " — analyzing previous failure and retrying...")
        logE "────────────────────────────────────────"
      else pure ())
    let out ← runAgentM env attempt
    logE ""
    logE "────────────────────────────────────────"
    let hasCh ← checkChanges (env.changeCheck attempt)
    if hasCh then pure out
    else if MAX_RETRY < attempt then do
      logE ""
      logE ("No changes detected after " ++ toString MAX_RETRY ++ " retries.")
      (if env.job.issueNo.isSome then tryIgnore (execM Cmd.ghIssueComment env.issueComment)
       else pure ())
      throwM "no changes after retries"
    else do
      logE ""
      logE ("No changes detected. Retrying... (attempt " ++ toString attempt ++ "/" ++ toString MAX_RETRY ++ ")")
      agentLoopF env fuel (attempt + 1) out

/-- Stage 1 plus the opening banner: provider lookup (`getProvider` throws
on an unknown name), banner lines, context resolution.  Returns
`(issueTitle, branchName)`. -/
def preCancelPhase (env : Env) : M (String × String) := do
  let providerName := strOr env.project.provider "claude"
  (if providerName = "claude" then pure ()
   else throwM ("Unknown provider: " ++ providerName))
  logE "========================================"
  let modeTag := match env.job.issueNo with
    | none => "Direct #" ++ toString env.job.id
    | some n => "Issue #" ++ toString n
  let fuTag := if env.followUp.isSome then " (Follow-up)" else ""
  logE ("  Vampire — " ++ modeTag ++ fuTag)
  logE ("  " ++ env.now)
  logE "========================================"
  logE ""
  match env.followUp with
  | some fu => do
    let issueTitle := strOr env.job.issueTitle
      (match env.job.issueNo with
       | none => env.job.type ++ " #" ++ toString env.job.id
       | some n => env.job.type ++ " #" ++ toString n)
    logE "[1/5] Follow-up on existing branch..."
    logE ("  Branch: " ++ fu.branch)
    logE ("  Feedback: " ++ takeStr fu.message 100 ++
      (if 100 < fu.message.length then "..." else ""))
    logE ""
    pure (issueTitle, fu.branch)
  | none =>
    match env.job.issueNo with
    | none => do
      logE "[1/5] Direct mode — using provided description..."
      let issueTitle := strOr env.job.issueTitle (env.job.type ++ " #" ++ toString env.job.id)
      let branchName := env.job.type ++ "/" ++ toString env.job.id
      logE ("  Title:  " ++ issueTitle)
      logE ("  Type:   " ++ env.job.type)
      logE ("  Branch: " ++ branchName)
      logE ""
      pure (issueTitle, branchName)
    | some n => do
      logE ("[1/5] Reading issue #" ++ toString n ++ "...")
      let issueTitle ← execM Cmd.ghIssueViewTitle env.issueViewTitle
      let _ ← execM Cmd.ghIssueViewBody env.issueViewBody
      let branchName := env.job.type ++ "/" ++ toString n
      let _ ← execM Cmd.dbUpdateTitle env.dbUpdateTitle
      logE ("  Title:  " ++ issueTitle)
      logE ("  Type:   " ++ env.job.type)
      logE ("  Branch: " ++ branchName)
      logE ""
      pure (issueTitle, branchName)

/-- Stages 2-3 (fetch and workspace preparation, worker.ts lines 159-211),
ending with the second cancellation checkpoint. -/
def workspacePhase (env : Env) (branchName : String) : M Unit := do
  logE "[2/5] Fetching latest..."
  let _ ← execM Cmd.gitFetchBase env.fetchBase
  (if env.followUp.isSome then tryIgnore (execM Cmd.gitFetchBranchRoot env.fetchBranchRoot)
   else pure ())
  logE "[3/5] Creating clean workspace..."
  let _ ← execM Cmd.gitRemoteGetUrl env.remoteUrl
  setCloneDirM
  (if env.followUp.isSome then do
      let _ ← execM Cmd.gitClone env.clone
      let _ ← execM Cmd.gitSetUrl env.setUrl
      let _ ← execM Cmd.gitFetchBranchClone env.fetchBranchClone
      let _ ← execM Cmd.gitCheckout env.checkout
      pure ()
    else do
      let _ ← execM Cmd.gitClone env.clone
      let _ ← execM Cmd.gitSetUrl env.setUrl
      tryIgnore (do
        let ls ← execM Cmd.gitLsRemote env.lsRemote
        if containsSub ls branchName then
          logE ("  Remote branch \x27" ++ branchName ++ "\x27 already exists. Will force push.")
        else pure ())
      let _ ← execM Cmd.gitCheckout env.checkout
      pure ())
  logE ("  Workspace: " ++ env.cloneDirName)
  logE ""
  (if env.cancel2 then throwM "cancelled" else pure ())

/-- Stages 1-3: context resolution, the first cancellation checkpoint,
fetch, and workspace preparation. -/
def phaseSetup (env : Env) : M (String × String) := do
  let ctx ← preCancelPhase env
  (if env.cancel1 then throwM "cancelled" else pure ())
  workspacePhase env ctx.2
  pure ctx

/-- Stage 4: the agent run with its retry loop, then the post-loop
cancellation checkpoint.  Returns the accumulated `claudeOutput`. -/
def phaseAgent (env : Env) : M String := do
  logE "[4/5] Running agent..."
  logE "────────────────────────────────────────"
  let out ← agentLoopF env (MAX_RETRY + 1) 1 ""
  (if env.cancelAfterLoop then throwM "cancelled" else pure ())
  pure out

/-- The data of a successfully completed run. -/
structure CompletedData where
  branch : String
  prBody : String
  prTitle : String
  diff : String

/-- Stage 5 (commit and push, worker.ts lines 398-442): the base-branch
safety gate, staging, commit, push, diff capture, PR body/title extraction,
and the closing banner. -/
def phasePush (env : Env) (issueTitle branchName claudeOutput : String) : M CompletedData := do
  logE "[5/5] Committing & pushing..."
  let currentBranch ← execM Cmd.gitShowCurrent env.showCurrent
  (if currentBranch = env.project.baseBranch then
    throwM ("FATAL: current branch is " ++ env.project.baseBranch ++ ". Aborting push.")
   else pure ())
  let _ ← execM Cmd.gitAdd env.addResult
  let _ ← execM Cmd.gitCommit env.commitResult
  let _ ← execM Cmd.gitPush env.pushResult
  let diff ← execM Cmd.gitDiffHead env.diffHead
  let prBody := extractPrBody claudeOutput env.job.issueNo
  let prTitle := match env.job.issueNo with
    | none => env.job.type ++ ": " ++ issueTitle
    | some n => env.job.type ++ ": " ++ issueTitle ++ " (#" ++ toString n ++ ")"
  logE ""
  logE "========================================"
  logE "  DONE"
  logE ("  " ++ (match env.job.issueNo with
    | none => "Task: " ++ issueTitle
    | some n => "Issue:  #" ++ toString n))
  logE ("  Branch: " ++ branchName)
  logE "  Create a PR from the web UI."
  logE "========================================"
  pure ⟨branchName, prBody, prTitle, diff⟩

/-- The whole `try` body of the worker (worker.ts lines 101-442). -/
def workerBody (env : Env) : M CompletedData := do
  let ctx ← phaseSetup env
  let claudeOutput ← phaseAgent env
  phasePush env ctx.1 ctx.2 claudeOutput

/-- The persisted result record resolved by the worker promise. -/
structure WorkerResult where
  status : String
  branch : Option String
  prBody : Option String
  prTitle : Option String
  diff : Option String
deriving DecidableEq

/-- The completed-run result (worker.ts line 442). -/
def mkCompleted (d : CompletedData) : WorkerResult :=
  ⟨"completed", some d.branch, some d.prBody, some d.prTitle, some d.diff⟩

/-- The result returned when the cancellation sentinel is caught
(worker.ts lines 444-446). -/
def cancelledResult : WorkerResult :=
  ⟨"cancelled", none, none, none, none⟩

/-- The initial trace state of a run. -/
def initSt : St := ⟨[], [], false⟩

/-- One whole run of the `try` body from the initial state. -/
def runBody (env : Env) : St × Except String CompletedData :=
  workerBody env initSt

/-- The `catch` handler (worker.ts lines 443-449): the `cancelled` sentinel
resolves to the cancelled result without logging anything; every other
error appends a blank line and `Error: <message>` to the log and is
rethrown. -/
def afterCatch (env : Env) : St × Except String WorkerResult :=
  match runBody env with
  | (st, Except.ok d) => (st, Except.ok (mkCompleted d))
  | (st, Except.error e) =>
    if e = "cancelled" then (st, Except.ok cancelledResult)
    else
      ({ st with log := st.log ++ [LogEntry.eng "", LogEntry.eng ("Error: " ++ e)] },
       Except.error e)

/-- The `finally` block (worker.ts lines 450-458): if `cloneDir` was ever
assigned, attempt `rm` (recursive, forced); on success two more log lines
are appended, and a failing `rm` is swallowed. -/
def afterFinally (env : Env) : St × Except String WorkerResult :=
  match afterCatch env with
  | (st, r) =>
    if st.cloneDirSet then
      if env.rmOk then
        ({ st with
            cmds := st.cmds ++ [Cmd.rmWorkspace],
            log := st.log ++ [LogEntry.eng "", LogEntry.eng "Cleaning up workspace..."] }, r)
      else ({ st with cmds := st.cmds ++ [Cmd.rmWorkspace] }, r)
    else (st, r)

/-- The finalization handlers (worker.ts lines 462-512): on resolution, a
non-cancelled result is demoted to `cancelled` when the re-read of the
persisted status reports cancellation; on rejection the status is `failed`
unless that same re-read reports cancellation. -/
def finalStatus (env : Env) : String :=
  match (afterFinally env).2 with
  | Except.ok r =>
    if r.status = "cancelled" then r.status
    else if env.finalCancelled then "cancelled" else r.status
  | Except.error _ => if env.finalCancelled then "cancelled" else "failed"

/-- The full command trace of a settled job: everything the body and the
`finally` block issued, then the terminal-status persistence write and the
`done` broadcast. -/
def fullTrace (env : Env) : List Cmd :=
  (afterFinally env).1.cmds ++ [Cmd.persistStatus (finalStatus env), Cmd.emitDone (finalStatus env)]

/-- The settled job's log. -/
def jobLog (env : Env) : List LogEntry :=
  (afterFinally env).1.log

/-- Is an `Except` a success? -/
def exceptOk {ε α : Type} : Except ε α → Bool
  | Except.ok _ => true
  | Except.error _ => false

/-- A concrete direct-mode job environment in which every external call
succeeds, the first agent attempt produces changes, and no cancellation is
ever observed: the job completes and pushes. -/
def sampleEnv : Env where
  job := ⟨1, none, some "Add feature", some "Please add the feature", "feat"⟩
  project := ⟨"main", some "claude", none⟩
  followUp := none
  now := "2026-01-01 00:00:00"
  cloneDirName := "/tmp/vampire-direct-1-1700000000000"
  issueViewTitle := ExecResult.ok "unused"
  issueViewBody := ExecResult.ok "unused"
  dbUpdateTitle := ExecResult.ok ""
  fetchBase := ExecResult.ok ""
  fetchBranchRoot := ExecResult.ok ""
  remoteUrl := ExecResult.ok "git@example.com:demo/repo.git"
  clone := ExecResult.ok ""
  setUrl := ExecResult.ok ""
  lsRemote := ExecResult.ok ""
  fetchBranchClone := ExecResult.ok ""
  checkout := ExecResult.ok ""
  cancel1 := false
  cancel2 := false
  cancelAttempt := fun _ => false
  agentResult := fun _ => Except.ok "I made the change."
  agentLogLines := fun _ => ["working..."]
  changeCheck := fun _ => ⟨false, true, "", false, false, false⟩
  issueComment := ExecResult.ok ""
  cancelAfterLoop := false
  showCurrent := ExecResult.ok "feat/1"
  addResult := ExecResult.ok ""
  commitResult := ExecResult.ok ""
  pushResult := ExecResult.ok ""
  diffHead := ExecResult.ok "diff --git a/x b/x"
  rmOk := true
  finalCancelled := false

/-- Variant of `sampleEnv` with a cancellation observed by the finalization re-read
(the cancel request lands after the push already succeeded). -/
def envLateCancel : Env := { sampleEnv with finalCancelled := true }

/-- Variant of `sampleEnv` with the first cooperative checkpoint reporting
cancellation (no subprocess has been spawned in direct mode at that
point). -/
def envEarlyCancel : Env := { sampleEnv with cancel1 := true }

/-- An issue-mode environment in which every agent attempt produces no
workspace changes: the retry budget is exhausted. -/
def envNoChanges : Env :=
  { sampleEnv with
    job := ⟨2, some 42, none, none, "fix"⟩,
    changeCheck := fun _ => ⟨true, true, "", false, false, false⟩ }

/-- Variant of `envNoChanges` without an issue number (direct mode). -/
def envNoChangesDirect : Env :=
  { envNoChanges with job := ⟨3, none, some "Fix it", none, "fix"⟩ }

/-- Variant of `sampleEnv` with the branch-name query answering the base branch. -/
def envBaseBranch : Env := { sampleEnv with showCurrent := ExecResult.ok "main" }

/-- Statement that `m` only ever appends commands satisfying `P` to the trace. -/
def Emits {α : Type} (m : M α) (P : Cmd → Prop) : Prop :=
  ∀ st st' r, m st = (st', r) → ∃ l, st'.cmds = st.cmds ++ l ∧ ∀ c ∈ l, P c

/-- The inspection commands the change check actually runs (a thrown error
aborts the remaining ones). -/
def changeCmds (ce : ChangeEnv) : List Cmd :=
  if ce.diffCmdFails || !ce.unstagedEmpty then [Cmd.gitDiffQuiet]
  else if ce.cachedCmdFails || !ce.stagedEmpty then [Cmd.gitDiffQuiet, Cmd.gitDiffCachedQuiet]
  else [Cmd.gitDiffQuiet, Cmd.gitDiffCachedQuiet, Cmd.gitLsFiles]

/-- The commands context resolution may issue. -/
def contextCmds : List Cmd := [Cmd.ghIssueViewTitle, Cmd.ghIssueViewBody, Cmd.dbUpdateTitle]

/-- The commands stages 2-3 may issue. -/
def workspaceCmds : List Cmd :=
  [Cmd.gitFetchBase, Cmd.gitFetchBranchRoot, Cmd.gitRemoteGetUrl, Cmd.gitClone,
   Cmd.gitSetUrl, Cmd.gitLsRemote, Cmd.gitFetchBranchClone, Cmd.gitCheckout]

/-- The commands the retry loop may issue. -/
def loopCmd (c : Cmd) : Prop :=
  (∃ n, c = Cmd.agentRun n) ∨ c = Cmd.gitDiffQuiet ∨ c = Cmd.gitDiffCachedQuiet
    ∨ c = Cmd.gitLsFiles ∨ c = Cmd.ghIssueComment

/-! ## Theorems -/

theorem bind_apply {α β : Type} (m : M α) (f : α → M β) (st : St) :
    (m >>= f) st = mBind m f st := rfl

theorem pure_apply {α : Type} (a : α) (st : St) :
    (pure a : M α) st = (st, Except.ok a) := rfl

theorem mBind_ok {α β : Type} {m : M α} {st st' : St} {a : α}
    (f : α → M β) (h : m st = (st', Except.ok a)) :
    mBind m f st = f a st' := by
  unfold mBind
  rw [h]

theorem mBind_err {α β : Type} {m : M α} {st st' : St} {e : String}
    (f : α → M β) (h : m st = (st', Except.error e)) :
    mBind m f st = (st', Except.error e) := by
  unfold mBind
  rw [h]

/-- The boolean reported by the change inspection, in closed form. -/
theorem reportsChanged_eq (ce : ChangeEnv) :
    reportsChanged ce =
      (ce.diffCmdFails || !ce.unstagedEmpty || ce.cachedCmdFails || !ce.stagedEmpty ||
       ce.lsFilesCmdFails || decide (0 < (strTrim ce.untracked).length)) := by
  rcases ce with ⟨u, sg, untr, f1, f2, f3⟩
  cases u <;> cases sg <;> cases f1 <;> cases f2 <;> cases f3 <;>
    simp [reportsChanged, checkChanges, tryOr, bind_apply, mBind, execM, pure_apply]

theorem strLen_pos_iff (s : String) : (0 < s.length) ↔ s ≠ "" := by
  rcases s with ⟨l⟩
  simp [String.length, String.ext_iff, Nat.pos_iff_ne_zero, List.length_eq_zero]

/-- Claim C6 — the Retry Controller's change inspection: with no inspection
command failing, it reports "no changes" exactly when the unstaged diff is
empty, the staged diff is empty, and the (trimmed) untracked listing is
empty; and whenever any of the three git inspection commands itself fails,
it reports the workspace as changed (the inspection never raises). -/
theorem claim6_change_detection (ce : ChangeEnv) :
    (ce.diffCmdFails = false → ce.cachedCmdFails = false → ce.lsFilesCmdFails = false →
      (reportsChanged ce = false ↔
        (ce.unstagedEmpty = true ∧ ce.stagedEmpty = true ∧ strTrim ce.untracked = "")))
    ∧ ((ce.diffCmdFails = true ∨ ce.cachedCmdFails = true ∨ ce.lsFilesCmdFails = true) →
      reportsChanged ce = true) := by
  have he := reportsChanged_eq ce
  rcases ce with ⟨u, sg, untr, f1, f2, f3⟩
  simp only at he
  constructor
  · intro h1 h2 h3
    subst h1; subst h2; subst h3
    rw [he]
    cases u <;> cases sg <;> simp [strLen_pos_iff]
  · intro h
    rw [he]
    simp only at h
    rcases h with h | h | h <;> simp [h]

/-- Witness for C6 at concrete inspection outcomes. -/
theorem claim6_witness :
    ((reportsChanged ⟨true, true, "", false, false, false⟩ = false ↔
        (true = true ∧ true = true ∧ strTrim "" = ""))
      ∧ reportsChanged ⟨true, true, "", true, false, false⟩ = true) :=
  ⟨(claim6_change_detection ⟨true, true, "", false, false, false⟩).1 rfl rfl rfl,
   (claim6_change_detection ⟨true, true, "", true, false, false⟩).2 (Or.inl rfl)⟩

/-- Claim C8 — a subscriber attaching to the log stream of a job whose
persisted status is already terminal (not `running`) gets exactly: the
headers, the done event carrying the final status string, and the stream
close — with no data (log-line) events and no live subscription. -/
theorem claim8_terminal_subscriber (st : String) (h : st ≠ "running") :
    logStreamRoute (some st) = [SseEvent.headWritten, SseEvent.doneEvent st, SseEvent.streamEnd]
    ∧ (∀ chunk, SseEvent.dataEvent chunk ∉ logStreamRoute (some st))
    ∧ SseEvent.subscribed ∉ logStreamRoute (some st) := by
  refine ⟨by simp [logStreamRoute, h], ?_, ?_⟩ <;> simp [logStreamRoute, h]

/-- Witness for C8 at the terminal status `completed`. -/
theorem claim8_witness :
    logStreamRoute (some "completed")
      = [SseEvent.headWritten, SseEvent.doneEvent "completed", SseEvent.streamEnd] :=
  (claim8_terminal_subscriber "completed" (by decide)).1

/-- Counterexample to claim C9 as stated: the stderr chunk `" warning \n"`
is not forwarded verbatim — `onText` receives the trimmed text instead. -/
theorem claim9_counterexample :
    stderrForward " warning \n" ≠ some " warning \n" := by decide

/-- Claim C9 (amended) — every stderr chunk is first trimmed of leading and
trailing whitespace; `onText` is invoked with exactly the trimmed text when
it is nonempty, and not invoked at all for whitespace-only chunks. -/
theorem claim9_stderr_trimmed (chunk : String) :
    (∀ t, stderrForward chunk = some t → t = strTrim chunk ∧ t ≠ "")
    ∧ (stderrForward chunk = none ↔ strTrim chunk = "") := by
  constructor
  · intro t ht
    unfold stderrForward at ht
    by_cases h : strTrim chunk = "" <;> simp [h] at ht
    exact ⟨ht.symm, by simp [← ht, h]⟩
  · unfold stderrForward
    by_cases h : strTrim chunk = "" <;> simp [h]

/-- Witness for C9 (amended) at the chunk `" x "`. -/
theorem claim9_witness :
    ("x" = strTrim " x " ∧ "x" ≠ "") ∧ stderrForward " x " = some "x" :=
  ⟨(claim9_stderr_trimmed " x ").1 "x" (by decide), by decide⟩

theorem splitNl_ne_nil (l : List Char) : splitNl l ≠ [] := by
  induction l with
  | nil => simp [splitNl]
  | cons c t ih =>
    rw [splitNl]
    by_cases hc : c = '\n'
    · simp [hc]
    · simp only [hc, if_false]
      cases h : splitNl t <;> simp

/-- The last (partial) segment of `splitNl` never contains a newline. -/
theorem splitNl_last_no_nl (z : List Char) : '\n' ∉ (splitNl z).getLastD [] := by
  induction z with
  | nil => simp [splitNl]
  | cons c t ih =>
    rcases h : splitNl t with _ | ⟨s, ss⟩
    · exact absurd h (splitNl_ne_nil t)
    · rw [h] at ih
      by_cases hc : c = '\n'
      · rw [splitNl, if_pos hc, h]
        simpa [List.getLastD_eq_getLast?, List.getLast?_cons_cons] using ih
      · rw [splitNl, if_neg hc, h]
        show '\n' ∉ ((c :: s) :: ss).getLastD []
        cases ss with
        | nil =>
          show '\n' ∉ c :: s
          have hs : ([s] : List (List Char)).getLastD [] = s := rfl
          rw [hs] at ih
          intro hm
          rcases List.mem_cons.mp hm with h1 | h2
          · exact hc h1.symm
          · exact ih h2
        | cons s2 ss2 =>
          simpa [List.getLastD_eq_getLast?, List.getLast?_cons_cons] using ih

/-- A newline-free list is a single segment. -/
theorem splitNl_single (l : List Char) (h : '\n' ∉ l) : splitNl l = [l] := by
  induction l with
  | nil => rfl
  | cons c t ih =>
    rw [splitNl]
    have hc : ¬ c = '\n' := fun hcc => h (hcc ▸ List.mem_cons_self c t)
    have ht : splitNl t = [t] := ih (fun hm => h (List.mem_cons_of_mem c hm))
    simp [hc, ht]

/-- How `split('\n')` distributes over appending: all complete segments of
`x` stay, `x`'s trailing segment glues onto `y`'s leading segment, and the
rest of `y`'s segments follow. -/
theorem splitNl_append (x y w : List Char) (ws : List (List Char))
    (hy : splitNl y = w :: ws) :
    splitNl (x ++ y) = (splitNl x).dropLast ++ ((splitNl x).getLastD [] ++ w) :: ws := by
  induction x with
  | nil =>
    rw [List.nil_append, hy]
    rfl
  | cons c x' ih =>
    rcases hS : splitNl x' with _ | ⟨s, ss⟩
    · exact absurd hS (splitNl_ne_nil x')
    by_cases hc : c = '\n'
    · have hl : splitNl ((c :: x') ++ y) = [] :: splitNl (x' ++ y) := by
        rw [List.cons_append, splitNl, if_pos hc]
      have hr : splitNl (c :: x') = [] :: splitNl x' := by
        rw [splitNl, if_pos hc]
      rw [hl, ih, hr, hS]
      simp [List.getLastD_eq_getLast?, List.getLast?_cons_cons]
    · have hr : splitNl (c :: x') = (c :: s) :: ss := by
        rw [splitNl, if_neg hc, hS]
      cases ss with
      | nil =>
        have hxy : splitNl (x' ++ y) = (s ++ w) :: ws := by
          rw [ih, hS]
          rfl
        have hl : splitNl ((c :: x') ++ y) = (c :: (s ++ w)) :: ws := by
          rw [List.cons_append, splitNl, if_neg hc, hxy]
        rw [hl, hr]
        simp
      | cons s2 ss2 =>
        have hxy : splitNl (x' ++ y)
            = s :: ((s2 :: ss2).dropLast ++ ((s2 :: ss2).getLastD [] ++ w) :: ws) := by
          rw [ih, hS]
          simp [List.getLastD_eq_getLast?, List.getLast?_cons_cons]
        have hl : splitNl ((c :: x') ++ y)
            = (c :: s) :: ((s2 :: ss2).dropLast ++ ((s2 :: ss2).getLastD [] ++ w) :: ws) := by
          rw [List.cons_append, splitNl, if_neg hc, hxy]
        rw [hl, hr]
        simp [List.getLastD_eq_getLast?, List.getLast?_cons_cons]

/-- Feeding two stdout chunks one after the other is the same as feeding
their concatenation: buffered partial lines are glued across the boundary. -/
theorem onStdoutData_append (p : List Char × StreamAcc) (x y : List Char) :
    onStdoutData (onStdoutData p x) y = onStdoutData p (x ++ y) := by
  rcases p with ⟨buf, a⟩
  rcases hy : splitNl y with _ | ⟨w, ws⟩
  · exact absurd hy (splitNl_ne_nil y)
  have hx := splitNl_append (buf ++ x) y w ws hy
  have hsingle : splitNl ((splitNl (buf ++ x)).getLastD [])
      = [(splitNl (buf ++ x)).getLastD []] :=
    splitNl_single _ (splitNl_last_no_nl (buf ++ x))
  have h2 := splitNl_append ((splitNl (buf ++ x)).getLastD []) y w ws hy
  rw [hsingle] at h2
  have h2' : splitNl ((splitNl (buf ++ x)).getLastD [] ++ y)
      = ((splitNl (buf ++ x)).getLastD [] ++ w) :: ws := by
    rw [h2]
    rfl
  unfold onStdoutData
  simp only [← List.append_assoc]
  rw [hx, h2']
  simp only [List.dropLast_append_cons, List.getLastD_eq_getLast?,
    List.getLast?_append_cons, List.foldl_append]

/-- Folding the data handler over a chunk list equals one feed of the
concatenation. -/
theorem foldl_onStdoutData (xs : List (List Char)) :
    ∀ (p : List Char × StreamAcc) (x : List Char),
      List.foldl onStdoutData (onStdoutData p x) xs = onStdoutData p (x ++ xs.flatten) := by
  induction xs with
  | nil => intro p x; simp
  | cons y ys ih =>
    intro p x
    simp only [List.foldl_cons, List.flatten_cons]
    rw [onStdoutData_append p x y, ih p (x ++ y), List.append_assoc]

/-- The events and final result of a stream run depend only on the
concatenated stdout text, not on where the chunk boundaries fall. -/
theorem runStream_chunks (chunks : List (List Char)) :
    runStream chunks = runStream [chunks.flatten] := by
  cases chunks with
  | nil => rfl
  | cons x xs =>
    show closeFlush (List.foldl onStdoutData (onStdoutData streamInit x) xs)
      = closeFlush (List.foldl onStdoutData streamInit [(x :: xs).flatten])
    rw [foldl_onStdoutData xs streamInit x]
    simp [List.flatten_cons]

/-- If the start sentinel first occurs at position `i` and the end sentinel
occurs after it, the regex matches there and captures up to the first end
sentinel (lazy group, leftmost match). -/
theorem regexFind_of_findSub (s : List Char) :
    ∀ i j, findSub prStart s = some i →
      findSub prEnd (s.drop (i + prStart.length)) = some j →
      regexFind s = some ((s.drop (i + prStart.length)).take j) := by
  induction s with
  | nil =>
    intro i j h1 _
    simp [findSub, show prStart.isPrefixOf ([] : List Char) = false from by decide] at h1
  | cons c t ih =>
    intro i j h1 h2
    by_cases hp : prStart.isPrefixOf (c :: t)
    · rw [findSub] at h1
      simp [hp] at h1
      subst h1
      simp only [Nat.zero_add] at h2
      unfold regexFind
      simp [hp, h2, Nat.zero_add]
    · rw [findSub] at h1
      simp [hp, Option.map_eq_some'] at h1
      rcases h1 with ⟨i', h1', rfl⟩
      have hdrop : (c :: t).drop (i' + 1 + prStart.length) = t.drop (i' + prStart.length) := by
        rw [show i' + 1 + prStart.length = (i' + prStart.length) + 1 by omega]
        rfl
      rw [hdrop] at h2
      unfold regexFind
      simp [hp, hdrop]
      exact ih i' j h1' h2

/-- Counterexample to claim C5 as stated: for an output whose delimited body
is the single blank `" "`, the persisted change description is not the
trimmed body (the empty string) — the empty trimmed capture is falsy, so
the synthesized default is persisted instead. -/
theorem claim5_counterexample :
    extractPrBody "---PR_BODY_START---\n \n---PR_BODY_END---" (some 7) ≠ strTrim " "
    ∧ extractPrBody "---PR_BODY_START---\n \n---PR_BODY_END---" (some 7)
        = defaultPrBody (some 7) := by
  constructor <;> decide

/-- Claim C5 (amended) — when the output contains the start sentinel
followed by a newline and, later, a newline followed by the end sentinel
(the hypotheses pin the first such occurrences), and the delimited body is
nonempty after trimming, the persisted change description is exactly the
body trimmed of leading and trailing whitespace; when the delimiters do not
match (or the body trims to empty), the synthesized default is used,
referencing the issue number when the job has one. -/
theorem claim5_pr_body_extraction :
    (∀ (pre b post : List Char) (n : Option Nat),
      findSub prStart (pre ++ prStart ++ b ++ prEnd ++ post) = some pre.length →
      findSub prEnd (b ++ prEnd ++ post) = some b.length →
      strTrim (String.mk b) ≠ "" →
      extractPrBody (String.mk (pre ++ prStart ++ b ++ prEnd ++ post)) n
        = strTrim (String.mk b))
    ∧ (∀ out : String,
        regexFind out.data = none →
        (∀ n : Nat, extractPrBody out (some n)
            = "Resolves #" ++ toString n ++ "\n\n_Auto-generated by Vampire_")
        ∧ extractPrBody out none = "_Auto-generated by Vampire_") := by
  constructor
  · intro pre b post n h1 h2 h3
    have hsplit : pre ++ prStart ++ b ++ prEnd ++ post
        = (pre ++ prStart) ++ (b ++ prEnd ++ post) := by
      simp [List.append_assoc]
    have hd : (pre ++ prStart ++ b ++ prEnd ++ post).drop (pre.length + prStart.length)
        = b ++ prEnd ++ post := by
      rw [hsplit, show pre.length + prStart.length = (pre ++ prStart).length by
        simp [List.length_append]]
      exact List.drop_left _ _
    have hr := regexFind_of_findSub _ _ _ h1 (by rw [hd]; exact h2)
    rw [hd] at hr
    have ht : (b ++ prEnd ++ post).take b.length = b := by
      rw [List.append_assoc]
      exact List.take_left b (prEnd ++ post)
    rw [ht] at hr
    simp only [List.append_assoc] at hr
    simp [extractPrBody, hr, h3]
  · intro out hn
    constructor <;> simp [extractPrBody, hn, defaultPrBody]

/-- Claim C4 — the stream parser is invariant under chunk boundaries: a run
over any chunking of the stdout text produces exactly the events of the
unsplit text (so a structured record is parsed exactly once, when its line
completes — with the close-time flush handling a trailing partial line);
in particular the `Write` tool-use record split at any byte offset across
two chunks yields exactly one `onToolUse("Write", {file_path: "a.ts"})`
callback, and no event fires while the record's newline has not arrived. -/
theorem claim4_stream_chunking :
    (∀ chunks : List (List Char), runStream chunks = runStream [chunks.flatten])
    ∧ (∀ i : Nat,
        (runStream [writeRecordLine.take i, writeRecordLine.drop i]).events
          = [CbEvent.toolUse "Write" (Json.jobj [("file_path", Json.jstr "a.ts")])])
    ∧ (∀ i : Nat,
        (List.foldl onStdoutData streamInit [writeRecord.take i]).2.events = []) := by
  refine ⟨runStream_chunks, ?_, ?_⟩
  · intro i
    rw [runStream_chunks [writeRecordLine.take i, writeRecordLine.drop i]]
    simp only [List.flatten_cons, List.flatten_nil, List.append_nil, List.take_append_drop]
    rfl
  · intro i
    have hnl : '\n' ∉ writeRecord.take i := fun hm =>
      (by decide : '\n' ∉ writeRecord) (List.take_subset i writeRecord hm)
    simp [onStdoutData, streamInit, splitNl_single _ hnl]

theorem emits_pure {α : Type} (a : α) (P : Cmd → Prop) : Emits (pure a) P := by
  intro st st' r h
  cases h
  exact ⟨[], (List.append_nil _).symm, fun c hc => absurd hc (List.not_mem_nil c)⟩

theorem emits_logE (s : String) (P : Cmd → Prop) : Emits (logE s) P := by
  intro st st' r h
  cases h
  exact ⟨[], (List.append_nil _).symm, fun c hc => absurd hc (List.not_mem_nil c)⟩

theorem emits_throwM {α : Type} (msg : String) (P : Cmd → Prop) :
    Emits (throwM msg : M α) P := by
  intro st st' r h
  cases h
  exact ⟨[], (List.append_nil _).symm, fun c hc => absurd hc (List.not_mem_nil c)⟩

theorem emits_setCloneDirM (P : Cmd → Prop) : Emits setCloneDirM P := by
  intro st st' r h
  cases h
  exact ⟨[], (List.append_nil _).symm, fun c hc => absurd hc (List.not_mem_nil c)⟩

theorem emits_execM (c : Cmd) (re : ExecResult) {P : Cmd → Prop} (hP : P c) :
    Emits (execM c re) P := by
  intro st st' r h
  unfold execM at h
  cases re <;> cases h <;>
    exact ⟨[c], rfl, fun x hx => by rw [List.mem_singleton.mp hx]; exact hP⟩

theorem emits_runAgentM (env : Env) (att : Nat) {P : Cmd → Prop}
    (hP : P (Cmd.agentRun att)) : Emits (runAgentM env att) P := by
  intro st st' r h
  unfold runAgentM at h
  cases har : env.agentResult att <;> rw [har] at h <;> cases h <;>
    exact ⟨[Cmd.agentRun att], rfl, fun x hx => by rw [List.mem_singleton.mp hx]; exact hP⟩

theorem emits_bind {α β : Type} {m : M α} {f : α → M β} {P : Cmd → Prop}
    (hm : Emits m P) (hf : ∀ a, Emits (f a) P) : Emits (m >>= f) P := by
  intro st st' r h
  rw [bind_apply] at h
  unfold mBind at h
  rcases hm1 : m st with ⟨st1, r1⟩
  rw [hm1] at h
  cases r1 with
  | ok a =>
    obtain ⟨l1, he1, hp1⟩ := hm st st1 _ hm1
    obtain ⟨l2, he2, hp2⟩ := hf a st1 st' r h
    exact ⟨l1 ++ l2, by rw [he2, he1, List.append_assoc],
      fun c hc => (List.mem_append.mp hc).elim (hp1 c) (hp2 c)⟩
  | error e =>
    cases h
    exact hm st _ _ hm1

theorem emits_ite {α : Type} (b : Prop) [Decidable b] {m m' : M α} {P : Cmd → Prop}
    (h1 : Emits m P) (h2 : Emits m' P) : Emits (if b then m else m') P := by
  by_cases hb : b
  · simpa [hb] using h1
  · simpa [hb] using h2

theorem emits_tryIgnore {α : Type} {m : M α} {P : Cmd → Prop} (h : Emits m P) :
    Emits (tryIgnore m) P := by
  intro st st' r hr
  unfold tryIgnore at hr
  rcases hm1 : m st with ⟨st1, r1⟩
  rw [hm1] at hr
  cases r1 <;> cases hr <;> exact h st _ _ hm1

theorem emits_tryOr {α : Type} {m : M α} {d : α} {P : Cmd → Prop} (h : Emits m P) :
    Emits (tryOr m d) P := by
  intro st st' r hr
  unfold tryOr at hr
  rcases hm1 : m st with ⟨st1, r1⟩
  rw [hm1] at hr
  cases r1 <;> cases hr <;> exact h st _ _ hm1

theorem emits_checkChanges (ce : ChangeEnv) {P : Cmd → Prop}
    (h1 : P Cmd.gitDiffQuiet) (h2 : P Cmd.gitDiffCachedQuiet) (h3 : P Cmd.gitLsFiles) :
    Emits (checkChanges ce) P := by
  unfold checkChanges
  exact emits_tryOr (emits_bind (emits_execM _ _ h1) (fun _ =>
    emits_bind (emits_execM _ _ h2) (fun _ =>
      emits_bind (emits_execM _ _ h3) (fun _ => emits_pure _ _))))

theorem emits_agentLoopF (env : Env) :
    ∀ (fuel attempt : Nat) (prev : String), Emits (agentLoopF env fuel attempt prev) loopCmd := by
  intro fuel
  induction fuel with
  | zero => intro attempt prev; exact emits_pure _ _
  | succ fuel ih =>
    intro attempt prev
    rw [agentLoopF]
    refine emits_bind (emits_ite _ (emits_throwM _ _) (emits_pure _ _)) (fun _ => ?_)
    refine emits_bind (emits_ite _ ?_ (emits_pure _ _)) (fun _ => ?_)
    · exact emits_bind (emits_logE _ _) (fun _ =>
        emits_bind (emits_logE _ _) (fun _ => emits_logE _ _))
    refine emits_bind (emits_runAgentM env attempt (Or.inl ⟨attempt, rfl⟩)) (fun out => ?_)
    refine emits_bind (emits_logE _ _) (fun _ => ?_)
    refine emits_bind (emits_logE _ _) (fun _ => ?_)
    refine emits_bind (emits_checkChanges _ (by simp [loopCmd]) (by simp [loopCmd])
      (by simp [loopCmd])) (fun hasCh => ?_)
    refine emits_ite _ (emits_pure _ _) ?_
    refine emits_ite _ ?_ ?_
    · refine emits_bind (emits_logE _ _) (fun _ => ?_)
      refine emits_bind (emits_logE _ _) (fun _ => ?_)
      refine emits_bind (emits_ite _ (emits_tryIgnore (emits_execM _ _ (by simp [loopCmd])))
        (emits_pure _ _)) (fun _ => ?_)
      exact emits_throwM _ _
    · refine emits_bind (emits_logE _ _) (fun _ => ?_)
      refine emits_bind (emits_logE _ _) (fun _ => ?_)
      exact ih (attempt + 1) out

theorem emits_preCancelPhase (env : Env) :
    Emits (preCancelPhase env) (fun c => c ∈ contextCmds) := by
  unfold preCancelPhase
  refine emits_bind (emits_ite _ (emits_pure _ _) (emits_throwM _ _)) (fun _ => ?_)
  refine emits_bind (emits_logE _ _) (fun _ => ?_)
  refine emits_bind (emits_logE _ _) (fun _ => ?_)
  refine emits_bind (emits_logE _ _) (fun _ => ?_)
  refine emits_bind (emits_logE _ _) (fun _ => ?_)
  refine emits_bind (emits_logE _ _) (fun _ => ?_)
  cases env.followUp with
  | some fu =>
    simp only
    refine emits_bind (emits_logE _ _) (fun _ => ?_)
    refine emits_bind (emits_logE _ _) (fun _ => ?_)
    refine emits_bind (emits_logE _ _) (fun _ => ?_)
    exact emits_bind (emits_logE _ _) (fun _ => emits_pure _ _)
  | none =>
    cases env.job.issueNo with
    | none =>
      simp only
      refine emits_bind (emits_logE _ _) (fun _ => ?_)
      refine emits_bind (emits_logE _ _) (fun _ => ?_)
      refine emits_bind (emits_logE _ _) (fun _ => ?_)
      refine emits_bind (emits_logE _ _) (fun _ => ?_)
      exact emits_bind (emits_logE _ _) (fun _ => emits_pure _ _)
    | some n =>
      simp only
      refine emits_bind (emits_logE _ _) (fun _ => ?_)
      refine emits_bind (emits_execM _ _ (by simp [contextCmds])) (fun _ => ?_)
      refine emits_bind (emits_execM _ _ (by simp [contextCmds])) (fun _ => ?_)
      refine emits_bind (emits_execM _ _ (by simp [contextCmds])) (fun _ => ?_)
      refine emits_bind (emits_logE _ _) (fun _ => ?_)
      refine emits_bind (emits_logE _ _) (fun _ => ?_)
      refine emits_bind (emits_logE _ _) (fun _ => ?_)
      exact emits_bind (emits_logE _ _) (fun _ => emits_pure _ _)

theorem emits_workspacePhase (env : Env) (branchName : String) :
    Emits (workspacePhase env branchName) (fun c => c ∈ workspaceCmds) := by
  unfold workspacePhase
  refine emits_bind (emits_logE _ _) (fun _ => ?_)
  refine emits_bind (emits_execM _ _ (by simp [workspaceCmds])) (fun _ => ?_)
  refine emits_bind (emits_ite _ (emits_tryIgnore (emits_execM _ _ (by simp [workspaceCmds])))
    (emits_pure _ _)) (fun _ => ?_)
  refine emits_bind (emits_logE _ _) (fun _ => ?_)
  refine emits_bind (emits_execM _ _ (by simp [workspaceCmds])) (fun _ => ?_)
  refine emits_bind (emits_setCloneDirM _) (fun _ => ?_)
  refine emits_bind (emits_ite _ ?_ ?_) (fun _ => ?_)
  · refine emits_bind (emits_execM _ _ (by simp [workspaceCmds])) (fun _ => ?_)
    refine emits_bind (emits_execM _ _ (by simp [workspaceCmds])) (fun _ => ?_)
    refine emits_bind (emits_execM _ _ (by simp [workspaceCmds])) (fun _ => ?_)
    exact emits_bind (emits_execM _ _ (by simp [workspaceCmds])) (fun _ => emits_pure _ _)
  · refine emits_bind (emits_execM _ _ (by simp [workspaceCmds])) (fun _ => ?_)
    refine emits_bind (emits_execM _ _ (by simp [workspaceCmds])) (fun _ => ?_)
    refine emits_bind (emits_tryIgnore (emits_bind (emits_execM _ _ (by simp [workspaceCmds]))
      (fun ls => emits_ite _ (emits_logE _ _) (emits_pure _ _)))) (fun _ => ?_)
    exact emits_bind (emits_execM _ _ (by simp [workspaceCmds])) (fun _ => emits_pure _ _)
  refine emits_bind (emits_logE _ _) (fun _ => ?_)
  refine emits_bind (emits_logE _ _) (fun _ => ?_)
  exact emits_ite _ (emits_throwM _ _) (emits_pure _ _)

theorem emits_phaseSetup (env : Env) :
    Emits (phaseSetup env) (fun c => c ∈ contextCmds ∨ c ∈ workspaceCmds) := by
  unfold phaseSetup
  refine emits_bind (P := fun c => c ∈ contextCmds ∨ c ∈ workspaceCmds) ?_ (fun ctx => ?_)
  · intro st st' r h
    obtain ⟨l, hl, hp⟩ := emits_preCancelPhase env st st' r h
    exact ⟨l, hl, fun c hc => Or.inl (hp c hc)⟩
  refine emits_bind (emits_ite _ (emits_throwM _ _) (emits_pure _ _)) (fun _ => ?_)
  refine emits_bind ?_ (fun _ => emits_pure _ _)
  intro st st' r h
  obtain ⟨l, hl, hp⟩ := emits_workspacePhase env ctx.2 st st' r h
  exact ⟨l, hl, fun c hc => Or.inr (hp c hc)⟩

theorem emits_phaseAgent (env : Env) : Emits (phaseAgent env) loopCmd := by
  unfold phaseAgent
  refine emits_bind (emits_logE _ _) (fun _ => ?_)
  refine emits_bind (emits_logE _ _) (fun _ => ?_)
  refine emits_bind (emits_agentLoopF env _ _ _) (fun out => ?_)
  exact emits_bind (emits_ite _ (emits_throwM _ _) (emits_pure _ _))
    (fun _ => emits_pure _ _)

theorem exceptOk_ok {α : Type} {e : Except String α} (h : exceptOk e = true) :
    ∃ o, e = Except.ok o := by
  cases e with
  | ok o => exact ⟨o, rfl⟩
  | error m => simp [exceptOk] at h

theorem logE_apply (s : String) (st : St) :
    logE s st = ({ st with log := st.log ++ [LogEntry.eng s] }, Except.ok ()) := rfl

theorem execM_ok (c : Cmd) (s : String) (st : St) :
    execM c (ExecResult.ok s) st
      = ({ st with cmds := st.cmds ++ [c] }, Except.ok (strTrim s)) := rfl

theorem execM_err (c : Cmd) (m : String) (st : St) :
    execM c (ExecResult.err m) st
      = ({ st with cmds := st.cmds ++ [c] }, Except.error m) := rfl

theorem throwM_apply {α : Type} (msg : String) (st : St) :
    (throwM msg : M α) st = (st, Except.error msg) := rfl

theorem tryIgnore_execM (c : Cmd) (r : ExecResult) (st : St) :
    tryIgnore (execM c r) st = ({ st with cmds := st.cmds ++ [c] }, Except.ok ()) := by
  unfold tryIgnore execM
  cases r <;> rfl

theorem runAgentM_ok {env : Env} {att : Nat} {o : String}
    (h : env.agentResult att = Except.ok o) (st : St) :
    runAgentM env att st
      = ({ st with
            cmds := st.cmds ++ [Cmd.agentRun att],
            log := st.log ++ (env.agentLogLines att).map LogEntry.agent }, Except.ok o) := by
  unfold runAgentM
  rw [h]

theorem checkChanges_noChanges {ce : ChangeEnv} (h : reportsChanged ce = false) (st : St) :
    checkChanges ce st
      = ({ st with cmds := st.cmds
            ++ [Cmd.gitDiffQuiet, Cmd.gitDiffCachedQuiet, Cmd.gitLsFiles] },
         Except.ok false) := by
  have he := reportsChanged_eq ce
  rw [h] at he
  have he' := he.symm
  simp only [Bool.or_eq_false_iff, Bool.not_eq_false'] at he'
  obtain ⟨⟨⟨⟨⟨hf1, hu⟩, hf2⟩, hsg⟩, hf3⟩, hlen⟩ := he'
  unfold checkChanges tryOr
  simp [bind_apply, mBind, execM, hf1, hf2, hf3, hu, hsg, hlen, pure]

/-- The `finally` block only appends the workspace removal (when the clone
directory was assigned) and never changes the result. -/
theorem afterFinally_cmds (env : Env) :
    (afterFinally env).1.cmds = (afterCatch env).1.cmds
        ++ (if (afterCatch env).1.cloneDirSet = true then [Cmd.rmWorkspace] else [])
    ∧ (afterFinally env).2 = (afterCatch env).2 := by
  unfold afterFinally
  rcases hac : afterCatch env with ⟨st, r⟩
  cases hcd : st.cloneDirSet <;> cases hrm : env.rmOk <;> simp [hcd, hrm]

/-- The `catch` handler never changes the command trace. -/
theorem afterCatch_cmds (env : Env) :
    (afterCatch env).1.cmds = (runBody env).1.cmds := by
  unfold afterCatch
  rcases hrb : runBody env with ⟨st, rb⟩
  cases rb with
  | ok d => rfl
  | error e => by_cases he : e = "cancelled" <;> simp [he]

/-- A result resolved by the `try`/`catch` body carries status `completed`
or `cancelled`. -/
theorem afterCatch_ok_status (env : Env) (r : WorkerResult)
    (h : (afterCatch env).2 = Except.ok r) :
    r.status = "completed" ∨ r.status = "cancelled" := by
  unfold afterCatch at h
  rcases hrb : runBody env with ⟨st, rb⟩
  rw [hrb] at h
  cases rb with
  | ok d =>
    simp at h
    rw [← h]
    exact Or.inl rfl
  | error e =>
    by_cases he : e = "cancelled"
    · simp [he] at h
      rw [← h]
      exact Or.inr rfl
    · simp [he] at h

/-- Every settled job's status is `completed`, `failed` or `cancelled`. -/
theorem finalStatus_cases (env : Env) :
    finalStatus env = "completed" ∨ finalStatus env = "failed"
      ∨ finalStatus env = "cancelled" := by
  unfold finalStatus
  cases hr : (afterFinally env).2 with
  | error e => cases hc : env.finalCancelled <;> simp
  | ok r =>
    have hst := afterCatch_ok_status env r (by rw [← (afterFinally_cmds env).2, hr])
    rcases hst with h | h <;> cases hc : env.finalCancelled <;> simp [h]

/-- Claim C10 — at finalization the engine re-reads the persisted status;
whenever that read reports `cancelled` the persisted terminal status is
`cancelled` regardless of the worker's own outcome (including a completed
run whose branch was already pushed), so a persisted cancellation is never
overwritten backward to `completed` or `failed`. -/
theorem claim10_final_cancel_override (env : Env) (h : env.finalCancelled = true) :
    finalStatus env = "cancelled" := by
  unfold finalStatus
  cases hr : (afterFinally env).2 with
  | error e => simp [h]
  | ok r =>
    by_cases hs : r.status = "cancelled" <;> simp [hs, h]

/-- Witness for C10: a run that completed (and pushed) but whose
finalization re-read observes cancellation settles as `cancelled`. -/
theorem claim10_witness :
    envLateCancel.finalCancelled = true ∧ finalStatus envLateCancel = "cancelled" :=
  ⟨rfl, claim10_final_cancel_override envLateCancel rfl⟩

/-- Claim C3 — for every job run, whatever the terminal outcome, the full
settled trace consists of the body's commands, then (whenever the clone
directory was assigned) the workspace removal, and only then the
terminal-status persistence write and the done broadcast: cleanup is
performed in the finalization path before the terminal status — always one
of `completed`, `failed`, `cancelled` — is persisted. -/
theorem claim3_cleanup_before_persist (env : Env) :
    fullTrace env = (afterCatch env).1.cmds
        ++ ((if (afterCatch env).1.cloneDirSet = true then [Cmd.rmWorkspace] else [])
        ++ [Cmd.persistStatus (finalStatus env), Cmd.emitDone (finalStatus env)])
    ∧ (finalStatus env = "completed" ∨ finalStatus env = "failed"
        ∨ finalStatus env = "cancelled") := by
  refine ⟨?_, finalStatus_cases env⟩
  unfold fullTrace
  rw [(afterFinally_cmds env).1, List.append_assoc]

/-- Under an early cancellation observed at the first checkpoint, the body
stops with some error while having issued only context-resolution
commands. -/
theorem runBody_early_cancel (env : Env) (h1 : env.cancel1 = true) :
    ∃ st e, runBody env = (st, Except.error e) ∧ ∀ c ∈ st.cmds, c ∈ contextCmds := by
  rcases hpc : preCancelPhase env initSt with ⟨st1, r1⟩
  obtain ⟨l, hl, hp⟩ := emits_preCancelPhase env initSt st1 r1 hpc
  have hmem : ∀ c ∈ st1.cmds, c ∈ contextCmds := by
    intro c hc
    rw [hl] at hc
    rcases List.mem_append.mp hc with h | h
    · exact absurd h (List.not_mem_nil c)
    · exact hp c h
  have hps : ∃ e, phaseSetup env initSt = (st1, Except.error e) := by
    unfold phaseSetup
    cases r1 with
    | error e => exact ⟨e, by rw [bind_apply, mBind_err _ hpc]⟩
    | ok ctx =>
      refine ⟨"cancelled", ?_⟩
      rw [bind_apply, mBind_ok _ hpc]
      simp [h1, bind_apply, mBind, throwM]
  obtain ⟨e, hps⟩ := hps
  refine ⟨st1, e, ?_, hmem⟩
  unfold runBody workerBody
  rw [bind_apply, mBind_err _ hps]

/-- Claim C7 — the cancellation condition is a distinguished sentinel: when
the body unwinds with it, the catch handler appends nothing to the log (it
is never logged as an error) and resolves the job to terminal status
`cancelled`; and when cancellation is observed at the first cooperative
checkpoint — before any workspace, agent or push subprocess is spawned —
no push (and no agent run) is ever attempted. -/
theorem claim7_cancellation_sentinel (env : Env) :
    ((runBody env).2 = Except.error "cancelled" →
      (afterCatch env).1.log = (runBody env).1.log
      ∧ (afterCatch env).2 = Except.ok cancelledResult
      ∧ finalStatus env = "cancelled")
    ∧ (env.cancel1 = true →
      Cmd.gitPush ∉ fullTrace env ∧ ∀ n, Cmd.agentRun n ∉ fullTrace env) := by
  constructor
  · intro h
    have hac : afterCatch env = ((runBody env).1, Except.ok cancelledResult) := by
      unfold afterCatch
      rcases hrb : runBody env with ⟨st, rb⟩
      rw [hrb] at h
      simp only at h
      rw [h]
      simp
    refine ⟨by rw [hac], by rw [hac], ?_⟩
    unfold finalStatus
    rw [(afterFinally_cmds env).2, hac]
    simp [cancelledResult]
  · intro h1
    obtain ⟨st, e, hrb, hmem⟩ := runBody_early_cancel env h1
    have hft : fullTrace env = (afterCatch env).1.cmds
        ++ ((if (afterCatch env).1.cloneDirSet = true then [Cmd.rmWorkspace] else [])
        ++ [Cmd.persistStatus (finalStatus env), Cmd.emitDone (finalStatus env)]) := by
      unfold fullTrace
      rw [(afterFinally_cmds env).1, List.append_assoc]
    have hcc : (afterCatch env).1.cmds = st.cmds := by
      rw [afterCatch_cmds env, hrb]
    constructor
    · intro hmm
      rw [hft, hcc] at hmm
      rcases List.mem_append.mp hmm with hA | hB
      · have := hmem _ hA
        simp [contextCmds] at this
      · rcases List.mem_append.mp hB with hC | hD
        · split at hC <;> simp at hC
        · simp at hD
    · intro n hmm
      rw [hft, hcc] at hmm
      rcases List.mem_append.mp hmm with hA | hB
      · have := hmem _ hA
        simp [contextCmds] at this
      · rcases List.mem_append.mp hB with hC | hD
        · split at hC <;> simp at hC
        · simp at hD

/-- Witness for C7: a direct-mode job cancelled at the first checkpoint. -/
theorem claim7_witness :
    ((afterCatch envEarlyCancel).2 = Except.ok cancelledResult
      ∧ finalStatus envEarlyCancel = "cancelled")
    ∧ Cmd.gitPush ∉ fullTrace envEarlyCancel :=
  ⟨((claim7_cancellation_sentinel envEarlyCancel).1 (by rfl)).2,
   ((claim7_cancellation_sentinel envEarlyCancel).2 rfl).1⟩

theorem fatal_ne_cancelled (b : String) :
    ("FATAL: current branch is " ++ b ++ ". Aborting push.") ≠ "cancelled" := by
  intro h
  have hl := congrArg String.length h
  rw [String.length_append, String.length_append] at hl
  have h1 : ("FATAL: current branch is " : String).length = 25 := rfl
  have h2 : (". Aborting push." : String).length = 16 := rfl
  have h3 : ("cancelled" : String).length = 9 := rfl
  omega

/-- Claim C1 — whenever the branch-name query runs and answers the
project's base branch, the engine throws the fatal guard error before any
`git add` / `git commit` / `git push` is issued; the error is not the
cancellation sentinel and is not retried, so (absent a concurrent
cancellation at finalization) the job settles as `failed`. -/
theorem claim1_base_branch_guard (env : Env) (s : String)
    (hA : exceptOk (phaseSetup env initSt).2 = true)
    (hB : exceptOk (phaseAgent env (phaseSetup env initSt).1).2 = true)
    (hs : env.showCurrent = ExecResult.ok s)
    (htrim : strTrim s = env.project.baseBranch)
    (hfc : env.finalCancelled = false) :
    (Cmd.gitAdd ∉ fullTrace env ∧ Cmd.gitCommit ∉ fullTrace env
      ∧ Cmd.gitPush ∉ fullTrace env)
    ∧ (runBody env).2 = Except.error
        ("FATAL: current branch is " ++ env.project.baseBranch ++ ". Aborting push.")
    ∧ finalStatus env = "failed" := by
  rcases hA0 : phaseSetup env initSt with ⟨stA, rA⟩
  rw [hA0] at hA hB
  simp only at hA hB
  obtain ⟨ctx, hctx⟩ := exceptOk_ok hA
  rw [hctx] at hA0
  rcases hB0 : phaseAgent env stA with ⟨stB, rB⟩
  rw [hB0] at hB
  simp only at hB
  obtain ⟨out, hout⟩ := exceptOk_ok hB
  rw [hout] at hB0
  have hrb : runBody env = phasePush env ctx.1 ctx.2 out stB := by
    unfold runBody workerBody
    rw [bind_apply, mBind_ok _ hA0]
    rw [bind_apply, mBind_ok _ hB0]
  have hpp : ∃ stC, phasePush env ctx.1 ctx.2 out stB
      = (stC, Except.error
          ("FATAL: current branch is " ++ env.project.baseBranch ++ ". Aborting push."))
      ∧ stC.cmds = stB.cmds ++ [Cmd.gitShowCurrent] := by
    unfold phasePush
    simp [bind_apply, mBind, logE, execM, hs, htrim, throwM]
  obtain ⟨stC, hC, hCc⟩ := hpp
  have hrb2 : runBody env = (stC, Except.error
      ("FATAL: current branch is " ++ env.project.baseBranch ++ ". Aborting push.")) :=
    hrb.trans hC
  obtain ⟨l1, hl1, hp1⟩ := emits_phaseSetup env initSt stA _ hA0
  obtain ⟨l2, hl2, hp2⟩ := emits_phaseAgent env stA stB _ hB0
  simp only [initSt, List.nil_append] at hl1
  have hmemB : ∀ c ∈ stB.cmds, (c ∈ contextCmds ∨ c ∈ workspaceCmds) ∨ loopCmd c := by
    intro c hc
    rw [hl2] at hc
    rcases List.mem_append.mp hc with h | h
    · rw [hl1] at h
      exact Or.inl (hp1 c h)
    · exact Or.inr (hp2 c h)
  have hft : fullTrace env = (afterCatch env).1.cmds
      ++ ((if (afterCatch env).1.cloneDirSet = true then [Cmd.rmWorkspace] else [])
      ++ [Cmd.persistStatus (finalStatus env), Cmd.emitDone (finalStatus env)]) := by
    unfold fullTrace
    rw [(afterFinally_cmds env).1, List.append_assoc]
  have hcc : (afterCatch env).1.cmds = stB.cmds ++ [Cmd.gitShowCurrent] := by
    rw [afterCatch_cmds env, hrb2, hCc]
  have hnotin : ∀ c, c = Cmd.gitAdd ∨ c = Cmd.gitCommit ∨ c = Cmd.gitPush →
      c ∉ fullTrace env := by
    intro c hcs hmm
    rw [hft, hcc] at hmm
    rcases List.mem_append.mp hmm with hA1 | hB1
    · rcases List.mem_append.mp hA1 with hA2 | hA3
      · rcases hmemB c hA2 with (h | h) | h <;>
          rcases hcs with rfl | rfl | rfl <;>
            simp [contextCmds, workspaceCmds, loopCmd] at h
      · rcases hcs with rfl | rfl | rfl <;> simp at hA3
    · rcases List.mem_append.mp hB1 with hC1 | hD1
      · split at hC1 <;> rcases hcs with rfl | rfl | rfl <;> simp at hC1
      · rcases hcs with rfl | rfl | rfl <;> simp at hD1
  have hr2 : (afterCatch env).2 = Except.error
      ("FATAL: current branch is " ++ env.project.baseBranch ++ ". Aborting push.") := by
    unfold afterCatch
    rw [hrb2]
    simp [fatal_ne_cancelled]
  refine ⟨⟨hnotin _ (Or.inl rfl), hnotin _ (Or.inr (Or.inl rfl)),
    hnotin _ (Or.inr (Or.inr rfl))⟩, by rw [hrb2], ?_⟩
  unfold finalStatus
  rw [(afterFinally_cmds env).2, hr2]
  simp [hfc]

/-- Witness for C1: a run whose branch-name query answers the base branch
`main`. -/
theorem claim1_witness :
    (Cmd.gitPush ∉ fullTrace envBaseBranch) ∧ finalStatus envBaseBranch = "failed" :=
  ⟨(claim1_base_branch_guard envBaseBranch "main" (by decide) (by decide) rfl
      (by decide) rfl).1.2.2,
   (claim1_base_branch_guard envBaseBranch "main" (by decide) (by decide) rfl
      (by decide) rfl).2.2⟩

theorem afterCatch_log_mono (env : Env) (x : LogEntry)
    (h : x ∈ (runBody env).1.log) : x ∈ (afterCatch env).1.log := by
  unfold afterCatch
  rcases hrb : runBody env with ⟨st, rb⟩
  rw [hrb] at h
  simp only at h
  cases rb with
  | ok d => exact h
  | error e =>
    by_cases he : e = "cancelled" <;> simp [he, List.mem_append, h]

theorem jobLog_mono (env : Env) (x : LogEntry)
    (h : x ∈ (afterCatch env).1.log) : x ∈ jobLog env := by
  unfold jobLog afterFinally
  rcases hac : afterCatch env with ⟨st, r⟩
  rw [hac] at h
  simp only at h
  cases hcd : st.cloneDirSet <;> cases hrm : env.rmOk <;>
    simp [hcd, hrm, List.mem_append, h]

/-- Claim C2 — when context resolution and workspace preparation succeed
and all `MAX_RETRY + 1 = 3` agent invocations complete with the change
check reporting no workspace changes, the job settles as `failed` (absent a
concurrent cancellation at finalization), its log contains the literal line
`"No changes detected after 2 retries."`, and exactly one diagnostic issue
comment is attempted when the job has an issue number (its own success or
failure is unconstrained and does not alter the outcome) and none when it
has none. -/
theorem claim2_no_changes_exhaustion (env : Env)
    (hA : exceptOk (phaseSetup env initSt).2 = true)
    (hcan : ∀ i, env.cancelAttempt i = false)
    (hag : ∀ i, exceptOk (env.agentResult i) = true)
    (hn : ∀ i, reportsChanged (env.changeCheck i) = false)
    (hfc : env.finalCancelled = false) :
    finalStatus env = "failed"
    ∧ LogEntry.eng "No changes detected after 2 retries." ∈ jobLog env
    ∧ (∀ k, env.job.issueNo = some k → (fullTrace env).count Cmd.ghIssueComment = 1)
    ∧ (env.job.issueNo = none → (fullTrace env).count Cmd.ghIssueComment = 0) := by
  rcases hA0 : phaseSetup env initSt with ⟨stA, rA⟩
  rw [hA0] at hA
  simp only at hA
  obtain ⟨ctx, hctx⟩ := exceptOk_ok hA
  rw [hctx] at hA0
  obtain ⟨o1, ho1⟩ := exceptOk_ok (hag 1)
  obtain ⟨o2, ho2⟩ := exceptOk_ok (hag 2)
  obtain ⟨o3, ho3⟩ := exceptOk_ok (hag 3)
  have hstr : ("No changes detected after " ++ toString (2 : Nat) ++ " retries." : String)
      = "No changes detected after 2 retries." := by decide
  have hpagS : (phaseAgent env stA).2 = Except.error "no changes after retries" := by
    unfold phaseAgent
    cases hIO : env.job.issueNo <;>
      simp [agentLoopF, bind_apply, mBind, logE, throwM, runAgentM, ho1, ho2, ho3,
        checkChanges_noChanges (hn 1), checkChanges_noChanges (hn 2),
        checkChanges_noChanges (hn 3), hcan, tryIgnore_execM, MAX_RETRY, hIO]
  have hpagL : LogEntry.eng "No changes detected after 2 retries."
      ∈ (phaseAgent env stA).1.log := by
    unfold phaseAgent
    cases hIO : env.job.issueNo <;>
      simp [agentLoopF, bind_apply, mBind, logE, throwM, runAgentM, ho1, ho2, ho3,
        checkChanges_noChanges (hn 1), checkChanges_noChanges (hn 2),
        checkChanges_noChanges (hn 3), hcan, tryIgnore_execM, MAX_RETRY, hIO, hstr]
  have hrb : runBody env
      = ((phaseAgent env stA).1, Except.error "no changes after retries") := by
    unfold runBody workerBody
    rw [bind_apply, mBind_ok _ hA0, bind_apply]
    rcases hpa : phaseAgent env stA with ⟨stB, rB⟩
    rw [hpa] at hpagS
    simp only at hpagS
    subst hpagS
    rw [mBind_err _ hpa]
  have hlog : LogEntry.eng "No changes detected after 2 retries." ∈ jobLog env :=
    jobLog_mono env _ (afterCatch_log_mono env _ (by rw [hrb]; simpa using hpagL))
  have hne : ("no changes after retries" : String) ≠ "cancelled" := by decide
  have hacS : (afterCatch env).2 = Except.error "no changes after retries" := by
    unfold afterCatch
    rw [hrb]
    simp [hne]
  have hstatus : finalStatus env = "failed" := by
    unfold finalStatus
    rw [(afterFinally_cmds env).2, hacS]
    simp [hfc]
  obtain ⟨l1, hl1, hp1⟩ := emits_phaseSetup env initSt stA _ hA0
  simp only [initSt, List.nil_append] at hl1
  have hzeroA : stA.cmds.count Cmd.ghIssueComment = 0 := by
    rw [hl1]
    exact List.count_eq_zero.mpr (fun hm => by
      have := hp1 _ hm
      simp [contextCmds, workspaceCmds] at this)
  have htr : (fullTrace env).count Cmd.ghIssueComment
      = (phaseAgent env stA).1.cmds.count Cmd.ghIssueComment := by
    unfold fullTrace
    rw [(afterFinally_cmds env).1, afterCatch_cmds env, hrb]
    simp only [List.count_append]
    split <;> simp [List.count_cons]
  refine ⟨hstatus, hlog, ?_, ?_⟩
  · intro k hk
    rw [htr]
    have hc1 : (phaseAgent env stA).1.cmds.count Cmd.ghIssueComment
        = stA.cmds.count Cmd.ghIssueComment + 1 := by
      unfold phaseAgent
      simp [agentLoopF, bind_apply, mBind, logE, throwM, runAgentM, ho1, ho2, ho3,
        checkChanges_noChanges (hn 1), checkChanges_noChanges (hn 2),
        checkChanges_noChanges (hn 3), hcan, tryIgnore_execM, MAX_RETRY, hk,
        List.count_append, List.count_cons]
    rw [hc1, hzeroA]
  · intro hk
    rw [htr]
    have hc0 : (phaseAgent env stA).1.cmds.count Cmd.ghIssueComment
        = stA.cmds.count Cmd.ghIssueComment := by
      unfold phaseAgent
      simp [agentLoopF, bind_apply, mBind, logE, throwM, runAgentM, ho1, ho2, ho3,
        checkChanges_noChanges (hn 1), checkChanges_noChanges (hn 2),
        checkChanges_noChanges (hn 3), hcan, tryIgnore_execM, MAX_RETRY, hk,
        List.count_append, List.count_cons]
    rw [hc0, hzeroA]

/-- Witness for C2: an issue-mode job (issue #42) whose three agent runs
all produce no changes. -/
theorem claim2_witness :
    finalStatus envNoChanges = "failed"
    ∧ LogEntry.eng "No changes detected after 2 retries." ∈ jobLog envNoChanges
    ∧ (fullTrace envNoChanges).count Cmd.ghIssueComment = 1 := by
  have h := claim2_no_changes_exhaustion envNoChanges (by decide)
    (fun _ => rfl) (fun _ => rfl) (fun _ => rfl) rfl
  exact ⟨h.1, h.2.1, h.2.2.1 42 rfl⟩

/-- Witness for C5 (amended): a body that survives trimming is extracted
verbatim-trimmed, and a marker-free output synthesizes the default. -/
theorem claim5_witness :
    extractPrBody (String.mk ("Intro\n".data ++ prStart ++ "Hello".data ++ prEnd ++ "\ntail".data))
        (some 3) = strTrim (String.mk "Hello".data)
    ∧ extractPrBody "no markers here" (some 3)
        = "Resolves #3\n\n_Auto-generated by Vampire_" :=
  ⟨claim5_pr_body_extraction.1 "Intro\n".data "Hello".data "\ntail".data (some 3)
      (by decide) (by decide) (by decide),
   (claim5_pr_body_extraction.2 "no markers here" (by decide)).1 3⟩

end Vampire
